import Mathlib

/-!
Shallow embedding of the Music-Therapy recommendation engine
(`recommendation_logic.py` and `music_engine.py`) and proofs about it.

Conventions of the embedding:
* Python floats are modelled as exact rationals (`Rat`).  All float literals
  in the source are exact decimals, so the model is faithful except for
  rounding, which none of the verified properties depends on.
* The square root in `_create_minimum_transition_path` (`dist ** 0.5`) is
  modelled by comparing squared distances instead: square root is strictly
  monotone on nonnegative numbers, so every comparison `dist < min_dist`
  in the source has the same outcome on squared distances.
* Python strings are Lean `String`s; `str.lower`/`str.strip` are modelled
  character-wise for the ASCII data used by the program.
-/

namespace MusicTherapy

/-- Characters removed by Python `str.strip()` (ASCII whitespace). -/
def isPySpace (c : Char) : Bool :=
  c = ' ' || c = '\t' || c = '\n' || c = '\r' || c = '\x0b' || c = '\x0c'

/-- Python `str.strip()`. -/
def pyStrip (s : String) : String :=
  String.mk (((s.toList.dropWhile isPySpace).reverse.dropWhile isPySpace).reverse)

/-- Python `str.lower()` (ASCII). -/
def pyLower (s : String) : String :=
  String.mk (s.toList.map Char.toLower)

/-- `s.lower().strip()`, the normalization used by `find_emotion_path` and
`generate_playlist`. -/
def normEmotion (s : String) : String := pyStrip (pyLower s)

/-- The `EMOTION_TO_VA` table from `recommendation_logic.py`: each named
emotion with its (valence, arousal) coordinates. -/
def EMOTION_TO_VA : List (String × Rat × Rat) :=
  [ ("happy", (0.8, 0.8)),
    ("sad", (-0.7, -0.6)),
    ("angry", (-0.6, 0.7)),
    ("fear", (-0.4, 0.8)),
    ("fearful", (-0.4, 0.8)),
    ("surprise", (0.1, 0.9)),
    ("surprised", (0.1, 0.9)),
    ("disgust", (-0.7, 0.1)),
    ("neutral", (0.0, 0.0)),
    ("calm", (0.7, -0.7)),
    ("anxious", (-0.3, 0.6)),
    ("focused", (0.3, 0.2)),
    ("energized", (0.6, 0.8)),
    ("relaxed", (0.5, -0.6)),
    ("loving", (0.7, 0.3)),
    ("melancholic", (-0.5, -0.4)),
    ("somber", (-0.35, -0.2)),
    ("irritated", (-0.45, 0.5)),
    ("tense", (-0.2, 0.4)),
    ("uneasy", (-0.15, 0.3)),
    ("content", (0.4, -0.3)),
    ("serene", (0.6, -0.5)),
    ("peaceful", (0.65, -0.6)),
    ("hopeful", (0.3, 0.1)),
    ("cheerful", (0.6, 0.5)) ]

/-- The keys of `EMOTION_TO_VA`, in iteration (insertion) order. -/
def emotionKeys : List String := EMOTION_TO_VA.map (·.1)

/-- Dictionary lookup `EMOTION_TO_VA[key]` / `key in EMOTION_TO_VA`. -/
def lookupVA (key : String) : Option (Rat × Rat) :=
  (EMOTION_TO_VA.find? (fun p => p.1 = key)).map (·.2)

/-- The `EMOTION_TRANSITIONS` adjacency table from `recommendation_logic.py`. -/
def EMOTION_TRANSITIONS : List (String × List String) :=
  [ ("sad", ["melancholic"]),
    ("melancholic", ["somber"]),
    ("somber", ["neutral", "content"]),
    ("angry", ["irritated"]),
    ("irritated", ["tense"]),
    ("tense", ["uneasy", "anxious"]),
    ("fearful", ["anxious"]),
    ("fear", ["anxious"]),
    ("anxious", ["uneasy"]),
    ("uneasy", ["neutral", "content"]),
    ("surprised", ["hopeful"]),
    ("surprise", ["hopeful"]),
    ("hopeful", ["neutral", "cheerful"]),
    ("neutral", ["content", "hopeful", "focused"]),
    ("content", ["serene", "hopeful"]),
    ("serene", ["peaceful"]),
    ("peaceful", ["calm"]),
    ("calm", ["relaxed", "peaceful"]),
    ("relaxed", ["calm", "content"]),
    ("focused", ["content", "cheerful"]),
    ("cheerful", ["happy", "energized"]),
    ("energized", ["happy", "cheerful"]),
    ("happy", ["energized", "loving"]),
    ("loving", ["happy", "content"]) ]

/-- `EMOTION_TRANSITIONS.get(current, [])`. -/
def transitionsOf (current : String) : List String :=
  ((EMOTION_TRANSITIONS.find? (fun p => p.1 = current)).map (·.2)).getD []

/-- `get_va_coordinates` from `recommendation_logic.py`: normalize the name
(`.strip().lower()`), look it up, fall back to the entry for "neutral". -/
def get_va_coordinates (emotion : String) : Rat × Rat :=
  let key := pyLower (pyStrip emotion)
  match lookupVA key with
  | none => (lookupVA "neutral").getD (0, 0)
  | some va => va

/-- One neighbor-processing pass of the BFS inner `for` loop in
`find_emotion_path`: for each neighbor, record the extended path when the
neighbor is the target, and enqueue/mark it when not yet visited. -/
def processNeighbors (target : String) (path : List String) :
    List String → List (String × List String) → List String →
    List (List String) →
    List (String × List String) × List String × List (List String)
  | [], queue, visited, found => (queue, visited, found)
  | n :: ns, queue, visited, found =>
    let newPath := path ++ [n]
    let found' := if n = target then found ++ [newPath] else found
    if n ∈ visited then
      processNeighbors target path ns queue visited found'
    else
      processNeighbors target path ns (queue ++ [(n, newPath)]) (visited ++ [n]) found'

/-- The BFS `while queue` loop of `find_emotion_path`, with explicit fuel.
Each node is enqueued at most once (the visited set grows with every
enqueue), so any fuel larger than the number of emotions is enough. -/
def bfsLoop (target : String) :
    Nat → List (String × List String) → List String → List (List String) →
    List (List String)
  | 0, _, _, found => found
  | _ + 1, [], _, found => found
  | fuel + 1, (current, path) :: rest, visited, found =>
    let next := transitionsOf current
    let step := processNeighbors target path next rest visited found
    bfsLoop target fuel step.1 step.2.1 step.2.2

/-- All paths collected by the BFS of `find_emotion_path` for a (normalized)
start/target pair: `found_paths` at the end of the `while` loop. -/
def foundPaths (start target : String) : List (List String) :=
  bfsLoop target 1000 [(start, [start])] [start] []

/-- Python `min(p :: ps, key=len)`: the first element of minimal length. -/
def pyMinByLen (p : List String) (ps : List (List String)) : List String :=
  ps.foldl (fun best q => if q.length < best.length then q else best) p

/-- `min(paths, key=len)` on a nonempty list of paths. -/
def pyMinByLenD : List (List String) → List String
  | [] => []
  | p :: ps => pyMinByLen p ps

/-- The argmin scan shared by `_extend_short_path` and
`_create_minimum_transition_path`: start from `("neutral", +inf)` and take
each emotion not excluded whose distance is strictly smaller than the
current minimum.  `none` models the initial `float('inf')`. -/
def scanStep (excluded : List String) (dist : String → Rat) :
    String × Option Rat → String → String × Option Rat
  | (best, none), e =>
    if e ∈ excluded then (best, none) else (e, some (dist e))
  | (best, some m), e =>
    if e ∈ excluded then (best, some m)
    else if dist e < m then (e, some (dist e)) else (best, some m)

/-- The full argmin loop over `EMOTION_TO_VA.keys()`. -/
def scanBest (excluded : List String) (dist : String → Rat) : String :=
  (emotionKeys.foldl (scanStep excluded dist) ("neutral", none)).1

/-- Manhattan distance from emotion `e`'s coordinates to `(vMid, aMid)`,
as computed in `_extend_short_path`. -/
def manhattanDistTo (vMid aMid : Rat) (e : String) : Rat :=
  let va := get_va_coordinates e
  |va.1 - vMid| + |va.2 - aMid|

/-- Squared Euclidean distance from emotion `e`'s coordinates to
`(vMid, aMid)`.  The source compares `((v-vm)**2 + (a-am)**2) ** 0.5`
values; comparisons of square roots of nonnegative numbers coincide with
comparisons of the radicands, so the argmin is unchanged. -/
def sqDistTo (vMid aMid : Rat) (e : String) : Rat :=
  let va := get_va_coordinates e
  (va.1 - vMid) ^ 2 + (va.2 - aMid) ^ 2

/-- `_extend_short_path` from `recommendation_logic.py`. -/
def _extend_short_path (path : List String) (target : String) : List String :=
  if 3 ≤ path.length then path
  else
    let start := path.headD ""
    let vaStart := get_va_coordinates start
    let vaTarget := get_va_coordinates target
    let vMid := (vaStart.1 + vaTarget.1) / 2
    let aMid := (vaStart.2 + vaTarget.2) / 2
    let best := scanBest [start, target] (manhattanDistTo vMid aMid)
    [start, best, target]

/-- `_create_minimum_transition_path` from `recommendation_logic.py`. -/
def _create_minimum_transition_path (start target : String) : List String :=
  let vaStart := get_va_coordinates start
  let vaTarget := get_va_coordinates target
  let vInt1 := vaStart.1 + (vaTarget.1 - vaStart.1) / 3
  let aInt1 := vaStart.2 + (vaTarget.2 - vaStart.2) / 3
  let vInt2 := vaStart.1 + 2 * (vaTarget.1 - vaStart.1) / 3
  let aInt2 := vaStart.2 + 2 * (vaTarget.2 - vaStart.2) / 3
  let i1 := scanBest [start, target] (sqDistTo vInt1 aInt1)
  let i2 := scanBest [start, target, i1] (sqDistTo vInt2 aInt2)
  [start, i1, i2, target]

/-- `find_emotion_path` from `recommendation_logic.py`. -/
def find_emotion_path (start0 target0 : String) : List String :=
  let start := normEmotion start0
  let target := normEmotion target0
  if start = target then [start]
  else
    match foundPaths start target with
    | [] => _create_minimum_transition_path start target
    | p :: ps =>
      match (p :: ps).filter (fun q => 3 ≤ q.length) with
      | [] => _extend_short_path (pyMinByLen p ps) target
      | q :: qs => pyMinByLen q qs

/-- Whether a list of emotions is a chain of edges of `EMOTION_TRANSITIONS`. -/
def isGraphPath : List String → Bool
  | [] => true
  | [_] => true
  | a :: b :: rest => (b ∈ transitionsOf a) && isGraphPath (b :: rest)

/-!
### Corpus normalization (`music_engine.py`)

A corpus column is a `List (Option Rat)`: `some x` is a parseable numeric
cell, `none` is a cell that `pd.to_numeric(..., errors="coerce")` turns
into NaN (and which `min`/`max` therefore skip).
-/

/-- The numeric (non-NaN) values of a column. -/
def seriesNumeric (series : List (Option Rat)) : List Rat :=
  series.filterMap id

/-- Pandas `Series.min()` over the numeric values (`none` = all-NaN). -/
def listMin? : List Rat → Option Rat
  | [] => none
  | x :: xs =>
    match listMin? xs with
    | none => some x
    | some m => some (min x m)

/-- Pandas `Series.max()` over the numeric values (`none` = all-NaN). -/
def listMax? : List Rat → Option Rat
  | [] => none
  | x :: xs =>
    match listMax? xs with
    | none => some x
    | some m => some (max x m)

/-- `_normalize_series_to_minus1_1` from `music_engine.py`: return the
series unchanged when min/max are NaN or equal, keep it when already
roughly within [-1.2, 1.2], map via `2x - 1` when clearly in [0, 1],
otherwise min-max rescale to [-1, 1]. -/
def _normalize_series_to_minus1_1 (series : List (Option Rat)) :
    List (Option Rat) :=
  match listMin? (seriesNumeric series), listMax? (seriesNumeric series) with
  | some mn, some mx =>
    if mx = mn then series
    else if -1.2 ≤ mn ∧ mx ≤ 1.2 then series
    else if 0 ≤ mn ∧ mn ≤ 1 ∧ 0 ≤ mx ∧ mx ≤ 1 then
      series.map (Option.map (fun x => x * 2 - 1))
    else
      series.map (Option.map (fun x => 2 * ((x - mn) / (mx - mn)) - 1))
  | _, _ => series

/-!
### The playlist composer (`AdvancedMusicRecommender.generate_playlist`)

The corpus is modelled at the typed level of the post-`preprocess_data`
schema: a `Track` carries the five required columns (so `is_ready` reduces
to non-emptiness) and the optional `dominance_tags` column is absent, so
the feature space is the 2-D (valence, arousal) space and
`_initialize_models` fits its models exactly when the engine is ready
(`knn_model is None` coincides with `not is_ready()`).

NumPy/scikit-learn operations whose values are irrational or stateful are
abstracted into an explicit environment `NumEnv S` (where `S` is the state
of NumPy's global random generator):
* `transformFit` models the fitted `StandardScaler.transform` applied to
  one row (its per-column standard deviations are real square roots);
* `norm` models `np.linalg.norm`;
* `exp` models `np.exp`;
* `seed` and `choice` model `np.random.seed(k)` and
  `np.random.choice(n, p=probabilities)`, the latter returning an
  in-range index as `np.random.choice` does for `n > 0`.
Every theorem below is proved for **every** environment, so no conclusion
depends on the numeric details of these abstracted operations.
-/

/-- One corpus row after `preprocess_data` (columns track, artist,
valence, arousal, spotify_id). -/
structure Track where
  track : String
  artist : String
  valence : Rat
  arousal : Rat
  spotify_id : String
deriving DecidableEq, Inhabited

/-- The engine's preprocessed dataframe. -/
structure MusicEngine where
  df : List Track

/-- `MusicEngine.is_ready`: non-empty with all required columns (always
present in the typed model). -/
def MusicEngine.is_ready (e : MusicEngine) : Bool := !e.df.isEmpty

/-- Abstracted NumPy/scikit-learn environment, see the section comment. -/
structure NumEnv (S : Type) where
  seed : Nat → S
  choice : S → (n : Nat) → 0 < n → List Rat → Fin n × S
  transformFit : List (List Rat) → List Rat → List Rat
  norm : List Rat → Rat
  exp : Rat → Rat

/-- A concrete trivial environment, used only to instantiate the
universally-quantified theorems in closed witnesses. -/
def unitNumEnv : NumEnv Unit where
  seed _ := ()
  choice s n h _ := (⟨0, h⟩, s)
  transformFit _ row := row
  norm _ := 0
  exp _ := 1

/-- Elementwise `a - b` on NumPy arrays. -/
def vsub (a b : List Rat) : List Rat := List.zipWith (fun x y => x - y) a b

/-- `start + (end - start) * t` on NumPy arrays. -/
def vlerp (a b : List Rat) (t : Rat) : List Rat :=
  List.zipWith (fun x y => x + (y - x) * t) a b

/-- The raw feature vector of a row: `[valence, arousal]`. -/
def featureVec (t : Track) : List Rat := [t.valence, t.arousal]

/-- `AdvancedMusicRecommender._gradient_based_transition`: `num_steps`
waypoints from `start_features` to `end_features` with cubic ease-in-out
easing of `t = i / max(1, num_steps - 1)`. -/
def _gradient_based_transition (start_features end_features : List Rat)
    (num_steps : Nat) : List (List Rat) :=
  (List.range num_steps).map (fun (i : Nat) =>
    let t : Rat := (i : Rat) / ((max 1 (num_steps - 1) : Nat) : Rat)
    let eased_t : Rat :=
      if t < 0.5 then 4 * t * t * t
      else 1 - (-2 * t + 2) ^ 3 / 2
    vlerp start_features end_features eased_t)

/-- The waypoint formula as the spec words it (§4.5): normalized position
`t = i/(n-1)` in [0,1], eased by `t < 0.5 ? 4t³ : 1-((-2t+2)³)/2`, then
linear interpolation of the two endpoint feature vectors by the eased
value.  Stated separately from the source translation so that C5 can
compare the two. -/
def specWaypoint (start_features end_features : List Rat) (n i : Nat) :
    List Rat :=
  let t : Rat := (i : Rat) / ((n : Rat) - 1)
  let eased : Rat := if t < 0.5 then 4 * t ^ 3 else 1 - (-2 * t + 2) ^ 3 / 2
  List.zipWith (fun a b => a + (b - a) * eased) start_features end_features

/-- `AdvancedMusicRecommender._compute_song_score` (the `song_id` argument
of the source is unused by its body and omitted here): negative distance
to the target point plus a constant diversity bonus once anything has been
selected. -/
def _compute_song_score {S : Type} (env : NumEnv S)
    (song_features target_features : List Rat) (used_ids : List String)
    (diversity_weight : Rat) : Rat :=
  let distance := env.norm (vsub song_features target_features)
  let base_score := -distance
  let diversity_bonus := if 0 < used_ids.length then diversity_weight else 0
  base_score + diversity_bonus

/-- Squared Euclidean distance between feature vectors.  `NearestNeighbors`
orders neighbors by Euclidean distance; ordering by the squared distance
is the same ordering, which keeps the model computable over `Rat`. -/
def sqDistVec (a b : List Rat) : Rat :=
  ((List.zipWith (fun x y => x - y) a b).map (fun d => d ^ 2)).sum

/-- `knn_model.kneighbors(point, k)`: indices of the `k` rows of the
fitted feature matrix nearest to `point`, in order of distance. -/
def kneighbors (matrix : List (List Rat)) (point : List Rat) (k : Nat) :
    List Nat :=
  ((List.range matrix.length).mergeSort
    (fun i j => sqDistVec (matrix.getD i []) point ≤
      sqDistVec (matrix.getD j []) point)).take k

/-- The mutable selection state of `generate_playlist`: `selected_songs`,
`used_ids` and the global NumPy RNG state. -/
structure SelState (S : Type) where
  selected : List Track
  used_ids : List String
  rng : S

/-- The candidate pool built by the `for dist, idx in zip(...)` loop at
one waypoint: each not-yet-used neighbor row paired with its score. -/
def waypointCandidates {S : Type} (env : NumEnv S) (df : List Track)
    (feature_matrix : List (List Rat)) (target_point : List Rat)
    (used_ids : List String) : List (Track × Rat) :=
  (kneighbors feature_matrix target_point (min 50 df.length)).filterMap
    (fun idx =>
      let song := df.getD idx default
      let song_id := song.spotify_id
      if song_id ∈ used_ids then none
      else
        let song_features := feature_matrix.getD idx []
        some (song, _compute_song_score env song_features target_point
          used_ids 0.3))

/-- The body of `for target_point in transition_points` in
`generate_playlist`: query the 50 nearest neighbors, drop already-used
ids, score the rest, convert shifted-exponentiated scores to
probabilities, sample one song, and record it. -/
def processWaypoint {S : Type} (env : NumEnv S) (df : List Track)
    (feature_matrix : List (List Rat)) (target_point : List Rat)
    (st : SelState S) : SelState S :=
  let candidates :=
    waypointCandidates env df feature_matrix target_point st.used_ids
  if h : candidates.length = 0 then st
  else
    let scores := candidates.map (·.2)
    let shifted := scores.map (fun x => x - (listMin? scores).getD 0 + 0.1)
    let weights := shifted.map env.exp
    let probabilities := weights.map (fun w => w / weights.sum)
    let pick := env.choice st.rng candidates.length (Nat.pos_of_ne_zero h)
      probabilities
    let best_song := (candidates.get pick.1).1
    { selected := st.selected ++ [best_song],
      used_ids := st.used_ids ++ [best_song.spotify_id],
      rng := pick.2 }

/-- The waypoint loop with its `break` once `num_steps` songs are
selected. -/
def processPoints {S : Type} (env : NumEnv S) (df : List Track)
    (feature_matrix : List (List Rat)) (num_steps : Nat) :
    List (List Rat) → SelState S → SelState S
  | [], st => st
  | point :: rest, st =>
    let st' := processWaypoint env df feature_matrix point st
    if num_steps ≤ st'.selected.length then st'
    else processPoints env df feature_matrix num_steps rest st'

/-- The `for path_idx in range(len(emotion_path) - 1)` loop of
`generate_playlist` with its `break`: per segment, compute this segment's
song count (the last segment absorbs the remainder), standardize the two
endpoint coordinate vectors, interpolate waypoints, and select songs. -/
def processSegments {S : Type} (env : NumEnv S) (df : List Track)
    (feature_matrix : List (List Rat)) (raw_features : List (List Rat))
    (emotion_path : List String) (num_steps : Nat) :
    List Nat → SelState S → SelState S
  | [], st => st
  | path_idx :: rest, st =>
    let current_emotion := emotion_path.getD path_idx ""
    let next_emotion := emotion_path.getD (path_idx + 1) ""
    let va_start := get_va_coordinates current_emotion
    let va_end := get_va_coordinates next_emotion
    let songs_for_transition :=
      if path_idx = emotion_path.length - 2 then
        num_steps - st.selected.length
      else num_steps / max 1 (emotion_path.length - 1)
    let start_features := env.transformFit raw_features [va_start.1, va_start.2]
    let end_features := env.transformFit raw_features [va_end.1, va_end.2]
    let transition_points :=
      _gradient_based_transition start_features end_features songs_for_transition
    let st' := processPoints env df feature_matrix num_steps transition_points st
    if num_steps ≤ st'.selected.length then st'
    else
      processSegments env df feature_matrix raw_features emotion_path
        num_steps rest st'

/-- The path-to-playlist part of `generate_playlist` once the guards have
passed: plan the emotion path, standardize the feature matrix, then run
the segment loop from an empty selection. -/
def playlistCore {S : Type} (env : NumEnv S) (engine : MusicEngine)
    (start_norm target_norm : String) (num_steps : Nat) (g' : S) :
    List Track :=
  let path0 := find_emotion_path start_norm target_norm
  let emotion_path := if path0.length < 2 then [start_norm, target_norm]
    else path0
  let raw_features := engine.df.map featureVec
  let feature_matrix := raw_features.map (env.transformFit raw_features)
  (processSegments env engine.df feature_matrix raw_features emotion_path
    num_steps (List.range (emotion_path.length - 1))
    { selected := [], used_ids := [], rng := g' }).selected

/-- `AdvancedMusicRecommender.generate_playlist`.  `g` is the global NumPy
RNG state at call time; a non-`none` `random_state` replaces it via
`np.random.seed`.  Returns the selected rows in selection order (the final
column projection of the source keeps all modelled fields). -/
def generate_playlist {S : Type} (env : NumEnv S) (engine : MusicEngine)
    (start_emotion target_emotion : String) (num_steps : Nat)
    (random_state : Option Nat) (g : S) : List Track :=
  if engine.is_ready = false then []
  else
    let g' := match random_state with
      | some seed_val => env.seed seed_val
      | none => g
    let start_norm := pyStrip (pyLower start_emotion)
    let target_norm := pyStrip (pyLower target_emotion)
    if start_norm = target_norm then []
    else playlistCore env engine start_norm target_norm num_steps g'

/-! ### Lemmas about the argmin scan -/

/-- One step of the argmin scan either keeps the accumulator or moves to the
current (non-excluded) emotion together with its distance. -/
lemma scanStep_cases (excluded : List String) (dist : String → Rat)
    (acc : String × Option Rat) (e : String) :
    scanStep excluded dist acc e = acc ∨
    (scanStep excluded dist acc e = (e, some (dist e)) ∧ e ∉ excluded) := by
  obtain ⟨best, om⟩ := acc
  by_cases he : e ∈ excluded
  · left
    match om with
    | none => simp [scanStep, he]
    | some m => simp [scanStep, he]
  · match om with
    | none => right; exact ⟨by simp [scanStep, he], he⟩
    | some m =>
      by_cases hlt : dist e < m
      · right; exact ⟨by simp [scanStep, he, hlt], he⟩
      · left; simp [scanStep, he, hlt]

/-- The argmin fold either returns the accumulator unchanged or a
non-excluded element of the scanned list carrying its own distance. -/
lemma scanFold_cases (excluded : List String) (dist : String → Rat) :
    ∀ (l : List String) (acc : String × Option Rat),
      l.foldl (scanStep excluded dist) acc = acc ∨
      ((l.foldl (scanStep excluded dist) acc).1 ∈ l ∧
        (l.foldl (scanStep excluded dist) acc).1 ∉ excluded ∧
        (l.foldl (scanStep excluded dist) acc).2 =
          some (dist (l.foldl (scanStep excluded dist) acc).1)) := by
  intro l
  induction l with
  | nil => intro acc; left; rfl
  | cons e l ih =>
    intro acc
    rw [List.foldl_cons]
    rcases ih (scanStep excluded dist acc e) with h | h
    · rcases scanStep_cases excluded dist acc e with hs | hs
      · left; rw [h, hs]
      · right
        rw [h, hs.1]
        exact ⟨List.mem_cons_self _ _, hs.2, rfl⟩
    · right
      exact ⟨List.mem_cons_of_mem _ h.1, h.2.1, h.2.2⟩

/-- Once the running minimum is set, it only decreases along the fold. -/
lemma scanFold_mono (excluded : List String) (dist : String → Rat) :
    ∀ (l : List String) (best : String) (m : Rat),
      ∃ m', (l.foldl (scanStep excluded dist) (best, some m)).2 = some m' ∧ m' ≤ m := by
  intro l
  induction l with
  | nil => intro best m; exact ⟨m, rfl, le_refl m⟩
  | cons e l ih =>
    intro best m
    rw [List.foldl_cons]
    by_cases he : e ∈ excluded
    · rw [show scanStep excluded dist (best, some m) e = (best, some m) by
        simp [scanStep, he]]
      exact ih best m
    · by_cases hlt : dist e < m
      · rw [show scanStep excluded dist (best, some m) e = (e, some (dist e)) by
          simp [scanStep, he, hlt]]
        obtain ⟨m', h1, h2⟩ := ih e (dist e)
        exact ⟨m', h1, le_trans h2 (le_of_lt hlt)⟩
      · rw [show scanStep excluded dist (best, some m) e = (best, some m) by
          simp [scanStep, he, hlt]]
        exact ih best m

/-- Every non-excluded element of the scanned list bounds the final running
minimum from above. -/
lemma scanFold_min (excluded : List String) (dist : String → Rat) :
    ∀ (l : List String) (acc : String × Option Rat) (e : String),
      e ∈ l → e ∉ excluded →
      ∃ m', (l.foldl (scanStep excluded dist) acc).2 = some m' ∧ m' ≤ dist e := by
  intro l
  induction l with
  | nil => intro acc e he; exact absurd he (List.not_mem_nil e)
  | cons a l ih =>
    intro acc e he hex
    rw [List.foldl_cons]
    rcases List.mem_cons.1 he with rfl | hmem
    · obtain ⟨best, om⟩ := acc
      match om with
      | none =>
        rw [show scanStep excluded dist (best, none) e = (e, some (dist e)) by
          simp [scanStep, hex]]
        obtain ⟨m', h1, h2⟩ := scanFold_mono excluded dist l e (dist e)
        exact ⟨m', h1, h2⟩
      | some m =>
        by_cases hlt : dist e < m
        · rw [show scanStep excluded dist (best, some m) e = (e, some (dist e)) by
            simp [scanStep, hex, hlt]]
          obtain ⟨m', h1, h2⟩ := scanFold_mono excluded dist l e (dist e)
          exact ⟨m', h1, h2⟩
        · rw [show scanStep excluded dist (best, some m) e = (best, some m) by
            simp [scanStep, hex, hlt]]
          obtain ⟨m', h1, h2⟩ := scanFold_mono excluded dist l best m
          exact ⟨m', h1, le_trans h2 (le_of_not_lt hlt)⟩
    · exact ih (scanStep excluded dist acc a) e hmem hex

/-- Specification of `scanBest`: when some table emotion is not excluded,
the scan returns a non-excluded table emotion of minimal distance. -/
lemma scanBest_spec (excluded : List String) (dist : String → Rat)
    (hne : ∃ e ∈ emotionKeys, e ∉ excluded) :
    scanBest excluded dist ∈ emotionKeys ∧
    scanBest excluded dist ∉ excluded ∧
    ∀ e ∈ emotionKeys, e ∉ excluded → dist (scanBest excluded dist) ≤ dist e := by
  obtain ⟨e, he, hex⟩ := hne
  obtain ⟨m0, hm0, _⟩ :=
    scanFold_min excluded dist emotionKeys ("neutral", none) e he hex
  rcases scanFold_cases excluded dist emotionKeys ("neutral", none) with h | h
  · rw [h] at hm0; exact absurd hm0 (by simp)
  · refine ⟨h.1, h.2.1, ?_⟩
    intro e' he' hex'
    obtain ⟨m', hm', hle⟩ :=
      scanFold_min excluded dist emotionKeys ("neutral", none) e' he' hex'
    rw [h.2.2] at hm'
    unfold scanBest
    rw [Option.some.inj hm']
    exact hle

/-- The emotion table has 25 pairwise distinct keys, so excluding fewer
than 25 names always leaves an unexcluded key. -/
lemma exists_key_not_excluded (excluded : List String)
    (h : excluded.length < emotionKeys.length) :
    ∃ e ∈ emotionKeys, e ∉ excluded := by
  by_contra hc
  push_neg at hc
  have hsub : emotionKeys ⊆ excluded := fun x hx => hc x hx
  have hnd : emotionKeys.Nodup := by decide
  exact absurd ((hnd.subperm hsub).length_le) (not_le_of_lt h)

/-! ### Lemmas about `min(paths, key=len)` -/

/-- Python `min(..., key=len)` returns a member of the list. -/
lemma pyMinByLen_mem (p : List String) (ps : List (List String)) :
    pyMinByLen p ps ∈ p :: ps := by
  induction ps generalizing p with
  | nil => exact List.mem_singleton.2 rfl
  | cons q ps ih =>
    unfold pyMinByLen at *
    rw [List.foldl_cons]
    by_cases hq : q.length < p.length
    · rw [if_pos hq]
      rcases List.mem_cons.1 (ih q) with h | h
      · rw [h]; exact List.mem_cons_of_mem _ (List.mem_cons_self _ _)
      · exact List.mem_cons_of_mem _ (List.mem_cons_of_mem _ h)
    · rw [if_neg hq]
      rcases List.mem_cons.1 (ih p) with h | h
      · rw [h]; exact List.mem_cons_self _ _
      · exact List.mem_cons_of_mem _ (List.mem_cons_of_mem _ h)

/-- Python `min(..., key=len)` returns an element of minimal length. -/
lemma pyMinByLen_le (p : List String) (ps : List (List String)) :
    ∀ r ∈ p :: ps, (pyMinByLen p ps).length ≤ r.length := by
  induction ps generalizing p with
  | nil =>
    intro r hr
    rw [List.mem_singleton.1 hr]
    exact le_refl _
  | cons q ps ih =>
    intro r hr
    unfold pyMinByLen at *
    rw [List.foldl_cons]
    by_cases hq : q.length < p.length
    · rw [if_pos hq]
      have hhead := ih q q (List.mem_cons_self _ _)
      rcases List.mem_cons.1 hr with rfl | hr'
      · exact le_trans hhead (le_of_lt hq)
      · rcases List.mem_cons.1 hr' with rfl | hr''
        · exact hhead
        · exact ih q r (List.mem_cons_of_mem _ hr'')
    · rw [if_neg hq]
      have hhead := ih p p (List.mem_cons_self _ _)
      rcases List.mem_cons.1 hr with rfl | hr'
      · exact hhead
      · rcases List.mem_cons.1 hr' with rfl | hr''
        · exact le_trans hhead (le_of_not_lt hq)
        · exact ih p r (List.mem_cons_of_mem _ hr'')

/-! ### Structure lemmas about `find_emotion_path` -/

/-- The emotion table has 25 entries. -/
lemma emotionKeys_length : emotionKeys.length = 25 := rfl

/-- Unfolding of `find_emotion_path` when the normalized emotions differ. -/
lemma find_emotion_path_eq (s t : String) (h : normEmotion s ≠ normEmotion t) :
    find_emotion_path s t =
      match foundPaths (normEmotion s) (normEmotion t) with
      | [] => _create_minimum_transition_path (normEmotion s) (normEmotion t)
      | p :: ps =>
        match (p :: ps).filter (fun q => 3 ≤ q.length) with
        | [] => _extend_short_path (pyMinByLen p ps) (normEmotion t)
        | q :: qs => pyMinByLen q qs := by
  rw [find_emotion_path]
  simp only [if_neg h]

/-- `_extend_short_path` always returns at least 3 emotions. -/
lemma extend_short_path_len (p : List String) (t : String) :
    3 ≤ (_extend_short_path p t).length := by
  rw [_extend_short_path]
  split
  · assumption
  · simp

/-- Normalization fixes every key of the affect table (they are already
lower-case and trimmed). -/
lemma normEmotion_fixed : ∀ e ∈ emotionKeys, normEmotion e = e := by decide

/-- Distinct emotions always yield a path of at least 3 emotions. -/
lemma find_emotion_path_min_length (s t : String)
    (h : normEmotion s ≠ normEmotion t) :
    3 ≤ (find_emotion_path s t).length := by
  rw [find_emotion_path_eq s t h]
  cases hf : foundPaths (normEmotion s) (normEmotion t) with
  | nil =>
    show 3 ≤ (_create_minimum_transition_path (normEmotion s) (normEmotion t)).length
    rw [_create_minimum_transition_path]
    simp
  | cons p ps =>
    show 3 ≤ (match (p :: ps).filter (fun q : List String => 3 ≤ q.length) with
      | [] => _extend_short_path (pyMinByLen p ps) (normEmotion t)
      | q :: qs => pyMinByLen q qs).length
    cases hl : (p :: ps).filter (fun q => 3 ≤ q.length) with
    | nil => exact extend_short_path_len _ _
    | cons q qs =>
      have hmem := pyMinByLen_mem q qs
      rw [← hl] at hmem
      have := (List.mem_filter.1 hmem).2
      simpa using of_decide_eq_true this

/-- C1: path-length characterization of `find_emotion_path`. (1) For every
emotion name in the affect table, `find_emotion_path(E, E) = [E]`. (2) For
every pair of distinct table emotions the returned path has at least 3
emotions (at least 2 transitions). (3) When the BFS finds no path from the
normalized start to the normalized target (target unreachable in
`EMOTION_TRANSITIONS`), the synthesized fallback path has length exactly 4. -/
theorem C1_path_length_characterization :
    (∀ e ∈ emotionKeys, find_emotion_path e e = [e]) ∧
    (∀ e1 ∈ emotionKeys, ∀ e2 ∈ emotionKeys, e1 ≠ e2 →
      3 ≤ (find_emotion_path e1 e2).length) ∧
    (∀ s t : String, normEmotion s ≠ normEmotion t →
      foundPaths (normEmotion s) (normEmotion t) = [] →
      (find_emotion_path s t).length = 4) := by
  refine ⟨by decide, ?_, ?_⟩
  · intro e1 h1 e2 h2 hne
    have h : normEmotion e1 ≠ normEmotion e2 := by
      rw [normEmotion_fixed e1 h1, normEmotion_fixed e2 h2]; exact hne
    exact find_emotion_path_min_length e1 e2 h
  · intro s t hne hempty
    rw [find_emotion_path_eq s t hne, hempty, _create_minimum_transition_path]
    simp

/-- Witness for C1 at concrete emotion pairs: "sad" to "happy" has a graph
path, "sad" is unreachable from "happy" so the fallback fires there. -/
theorem C1_path_length_characterization_witness :
    find_emotion_path "calm" "calm" = ["calm"] ∧
    3 ≤ (find_emotion_path "sad" "happy").length ∧
    (find_emotion_path "happy" "sad").length = 4 :=
  ⟨C1_path_length_characterization.1 "calm" (by decide),
   C1_path_length_characterization.2.1 "sad" (by decide) "happy" (by decide)
     (by decide),
   C1_path_length_characterization.2.2 "happy" "sad" (by decide) (by decide)⟩

/-! ### C8: total coordinate lookup with neutral fallback -/

/-- C8: `get_va_coordinates` lowercases and trims its input and looks it up
in `EMOTION_TO_VA`; when the normalized name is a key it returns that key's
coordinates, and when it is absent it returns the coordinates of "neutral",
which are (0, 0).  The function is total (it is a Lean function), modelling
that the Python code never raises for any string input. -/
theorem C8_coordinate_lookup_total (s : String) :
    (pyLower (pyStrip s) ∈ emotionKeys →
      ∃ va, lookupVA (pyLower (pyStrip s)) = some va ∧
        get_va_coordinates s = va) ∧
    (pyLower (pyStrip s) ∉ emotionKeys →
      get_va_coordinates s = get_va_coordinates "neutral" ∧
      get_va_coordinates s = (0, 0)) := by
  constructor
  · intro hmem
    obtain ⟨pr, hpr, hpre⟩ := List.mem_map.1 hmem
    have hsome : (EMOTION_TO_VA.find? (fun p => p.1 = pyLower (pyStrip s))).isSome := by
      rw [List.find?_isSome]
      exact ⟨pr, hpr, by simp [hpre]⟩
    obtain ⟨res, hfind⟩ := Option.isSome_iff_exists.1 hsome
    refine ⟨res.2, ?_, ?_⟩
    · rw [lookupVA, hfind]; rfl
    · rw [get_va_coordinates]
      simp only [lookupVA, hfind, Option.map_some']
  · intro hnmem
    have hnone : lookupVA (pyLower (pyStrip s)) = none := by
      rw [lookupVA, List.find?_eq_none.2]
      · rfl
      · intro p hp
        simp only [decide_eq_true_eq]
        intro hpe
        exact hnmem (List.mem_map.2 ⟨p, hp, hpe⟩)
    have hneuKey : pyLower (pyStrip "neutral") = "neutral" := by decide
    have hneu : lookupVA "neutral" = some (0.0, 0.0) := rfl
    constructor
    · rw [get_va_coordinates, get_va_coordinates, hneuKey]
      simp only [hnone, hneu, Option.getD_some]
    · rw [get_va_coordinates]
      simp only [hnone, hneu, Option.getD_some, Prod.mk.injEq]
      norm_num

/-- Witness for C8: an unknown name falls back to (0, 0); a known name in
different case and with whitespace resolves through the table. -/
theorem C8_coordinate_lookup_total_witness :
    get_va_coordinates "totally-unknown-xyz" = (0, 0) ∧
    (∃ va, lookupVA (pyLower (pyStrip " HAPPY ")) = some va ∧
      get_va_coordinates " HAPPY " = va) :=
  ⟨((C8_coordinate_lookup_total "totally-unknown-xyz").2 (by decide)).2,
   (C8_coordinate_lookup_total " HAPPY ").1 (by decide)⟩

/-! ### C9: the synthesized fallback path is pairwise distinct -/

/-- Distinctness of a 4-element path from the two exclusion facts. -/
lemma pairwise_ne_of_excluded (s t i1 i2 : String) (h : s ≠ t)
    (h1 : i1 ∉ [s, t]) (h2 : i2 ∉ [s, t, i1]) :
    List.Pairwise (· ≠ ·) [s, i1, i2, t] := by
  simp only [List.mem_cons, List.not_mem_nil, or_false, not_or] at h1 h2
  obtain ⟨h1s, h1t⟩ := h1
  obtain ⟨h2s, h2t, h2i⟩ := h2
  refine List.Pairwise.cons ?_ (List.Pairwise.cons ?_ (List.Pairwise.cons ?_
    (List.Pairwise.cons (fun x hx => absurd hx (List.not_mem_nil x))
      List.Pairwise.nil)))
  · intro x hx
    rcases List.mem_cons.1 hx with rfl | hx
    · exact fun he => h1s he.symm
    rcases List.mem_cons.1 hx with rfl | hx
    · exact fun he => h2s he.symm
    rcases List.mem_cons.1 hx with rfl | hx
    · exact h
    · exact absurd hx (List.not_mem_nil x)
  · intro x hx
    rcases List.mem_cons.1 hx with rfl | hx
    · exact fun he => h2i he.symm
    rcases List.mem_cons.1 hx with rfl | hx
    · exact h1t
    · exact absurd hx (List.not_mem_nil x)
  · intro x hx
    rcases List.mem_cons.1 hx with rfl | hx
    · exact h2t
    · exact absurd hx (List.not_mem_nil x)

/-- C9: for any two distinct (normalized) emotion names, the fallback path
`[start, i1, i2, target]` built by `_create_minimum_transition_path` picks
its intermediates from the affect table excluding the names already in the
path, so the four emotions are pairwise distinct. -/
theorem C9_fallback_path_pairwise_distinct (start target : String)
    (h : start ≠ target) :
    ∃ i1 i2,
      _create_minimum_transition_path start target = [start, i1, i2, target] ∧
      i1 ∈ emotionKeys ∧ i1 ∉ [start, target] ∧
      i2 ∈ emotionKeys ∧ i2 ∉ [start, target, i1] ∧
      List.Pairwise (· ≠ ·) [start, i1, i2, target] := by
  have hex1 : ∃ e ∈ emotionKeys, e ∉ [start, target] :=
    exists_key_not_excluded _ (by simp [emotionKeys_length])
  have hex2 : ∀ i1 : String, ∃ e ∈ emotionKeys, e ∉ [start, target, i1] :=
    fun i1 => exists_key_not_excluded _ (by simp [emotionKeys_length])
  simp only [_create_minimum_transition_path]
  refine ⟨_, _, rfl, (scanBest_spec _ _ hex1).1, (scanBest_spec _ _ hex1).2.1,
    (scanBest_spec _ _ (hex2 _)).1, (scanBest_spec _ _ (hex2 _)).2.1,
    pairwise_ne_of_excluded _ _ _ _ h (scanBest_spec _ _ hex1).2.1
      (scanBest_spec _ _ (hex2 _)).2.1⟩

/-- Witness for C9 at the concrete pair ("sad", "happy"). -/
theorem C9_fallback_path_pairwise_distinct_witness :
    ∃ i1 i2,
      _create_minimum_transition_path "sad" "happy" = ["sad", i1, i2, "happy"] ∧
      i1 ∈ emotionKeys ∧ i1 ∉ ["sad", "happy"] ∧
      i2 ∈ emotionKeys ∧ i2 ∉ ["sad", "happy", i1] ∧
      List.Pairwise (· ≠ ·) ["sad", i1, i2, "happy"] :=
  C9_fallback_path_pairwise_distinct "sad" "happy" (by decide)

/-! ### C2: BFS collection and selection policy -/

/-- When the collected paths filter to a nonempty ≥3-length list, the
result is the first shortest of the filtered list. -/
lemma find_emotion_path_eq_filter_pos (s t : String)
    (hns : normEmotion s ≠ normEmotion t)
    (p : List String) (ps : List (List String)) (q : List String)
    (qs : List (List String))
    (hfound : foundPaths (normEmotion s) (normEmotion t) = p :: ps)
    (hl : (p :: ps).filter (fun r : List String => 3 ≤ r.length) = q :: qs) :
    find_emotion_path s t = pyMinByLen q qs := by
  rw [find_emotion_path_eq s t hns, hfound]
  show (match (p :: ps).filter (fun r : List String => 3 ≤ r.length) with
    | [] => _extend_short_path (pyMinByLen p ps) (normEmotion t)
    | q :: qs => pyMinByLen q qs) = pyMinByLen q qs
  rw [hl]

/-- When every collected path has fewer than 3 emotions, the result is the
extension of the first shortest collected path. -/
lemma find_emotion_path_eq_filter_nil (s t : String)
    (hns : normEmotion s ≠ normEmotion t)
    (p : List String) (ps : List (List String))
    (hfound : foundPaths (normEmotion s) (normEmotion t) = p :: ps)
    (hl : (p :: ps).filter (fun r : List String => 3 ≤ r.length) = []) :
    find_emotion_path s t = _extend_short_path (pyMinByLen p ps) (normEmotion t) := by
  rw [find_emotion_path_eq s t hns, hfound]
  show (match (p :: ps).filter (fun r : List String => 3 ≤ r.length) with
    | [] => _extend_short_path (pyMinByLen p ps) (normEmotion t)
    | q :: qs => pyMinByLen q qs) = _extend_short_path (pyMinByLen p ps) (normEmotion t)
  rw [hl]

/-- Characterization of `_extend_short_path` on short paths: it inserts the
affect-table emotion (excluding the path head and the target) nearest — in
the Manhattan metric used by the source — to the midpoint of the head's and
the target's coordinates. -/
lemma extend_short_path_char (path : List String) (target : String)
    (h : path.length < 3) :
    ∃ b, _extend_short_path path target = [path.headD "", b, target] ∧
      b ∈ emotionKeys ∧ b ∉ [path.headD "", target] ∧
      ∀ e ∈ emotionKeys, e ∉ [path.headD "", target] →
        manhattanDistTo
          (((get_va_coordinates (path.headD "")).1 + (get_va_coordinates target).1) / 2)
          (((get_va_coordinates (path.headD "")).2 + (get_va_coordinates target).2) / 2) b ≤
        manhattanDistTo
          (((get_va_coordinates (path.headD "")).1 + (get_va_coordinates target).1) / 2)
          (((get_va_coordinates (path.headD "")).2 + (get_va_coordinates target).2) / 2) e := by
  have hex : ∃ e ∈ emotionKeys, e ∉ [path.headD "", target] :=
    exists_key_not_excluded _ (by simp [emotionKeys_length])
  rw [_extend_short_path, if_neg (by omega : ¬ 3 ≤ path.length)]
  exact ⟨_, rfl, (scanBest_spec _ _ hex).1, (scanBest_spec _ _ hex).2.1,
    (scanBest_spec _ _ hex).2.2⟩

/-- C2 (amended): the BFS does not stop at the first path reaching the
target — it can collect several (e.g. two for "sad" → "calm") — though,
because of the visited set, it collects one path per expanded in-neighbor
of the target rather than every discoverable path.  Among collected paths
with at least 3 emotions, the returned path is the (first) shortest; when
every collected path is shorter, the shortest collected path is extended
with the affect-table emotion nearest to the start/target midpoint. -/
theorem C2_bfs_selection_policy :
    2 ≤ (foundPaths "sad" "calm").length ∧
    (∀ s t : String, normEmotion s ≠ normEmotion t →
      ∀ p ps, foundPaths (normEmotion s) (normEmotion t) = p :: ps →
        (∀ q qs, (p :: ps).filter (fun r : List String => 3 ≤ r.length) = q :: qs →
          find_emotion_path s t ∈ q :: qs ∧
          ∀ r ∈ q :: qs, (find_emotion_path s t).length ≤ r.length) ∧
        ((p :: ps).filter (fun r : List String => 3 ≤ r.length) = [] →
          find_emotion_path s t =
            _extend_short_path (pyMinByLen p ps) (normEmotion t) ∧
          pyMinByLen p ps ∈ p :: ps ∧
          ∀ r ∈ p :: ps, (pyMinByLen p ps).length ≤ r.length)) ∧
    (∀ path target, path.length < 3 →
      ∃ b, _extend_short_path path target = [path.headD "", b, target] ∧
        b ∈ emotionKeys ∧ b ∉ [path.headD "", target] ∧
        ∀ e ∈ emotionKeys, e ∉ [path.headD "", target] →
          manhattanDistTo
            (((get_va_coordinates (path.headD "")).1 + (get_va_coordinates target).1) / 2)
            (((get_va_coordinates (path.headD "")).2 + (get_va_coordinates target).2) / 2) b ≤
          manhattanDistTo
            (((get_va_coordinates (path.headD "")).1 + (get_va_coordinates target).1) / 2)
            (((get_va_coordinates (path.headD "")).2 + (get_va_coordinates target).2) / 2) e) := by
  refine ⟨by decide, ?_, extend_short_path_char⟩
  intro s t hns p ps hfound
  constructor
  · intro q qs hl
    rw [find_emotion_path_eq_filter_pos s t hns p ps q qs hfound hl]
    exact ⟨pyMinByLen_mem q qs, pyMinByLen_le q qs⟩
  · intro hl
    exact ⟨find_emotion_path_eq_filter_nil s t hns p ps hfound hl,
      pyMinByLen_mem p ps, pyMinByLen_le p ps⟩

/-- C2 counterexample to the claim as stated: a valid transition-graph path
from "sad" to "calm" that the BFS does **not** collect (its visited set
keeps only one tree path per node), refuting "collects every discoverable
path from start to target". -/
theorem C2_bfs_counterexample :
    isGraphPath ["sad", "melancholic", "somber", "neutral", "content",
      "serene", "peaceful", "calm"] = true ∧
    ["sad", "melancholic", "somber", "neutral", "content", "serene",
      "peaceful", "calm"].headD "" = "sad" ∧
    ["sad", "melancholic", "somber", "neutral", "content", "serene",
      "peaceful", "calm"].getLast? = some "calm" ∧
    ["sad", "melancholic", "somber", "neutral", "content", "serene",
      "peaceful", "calm"] ∉ foundPaths "sad" "calm" := by decide

/-- Witness for C2 at the pair ("sad", "melancholic"), whose only collected
path `["sad", "melancholic"]` is too short and gets extended. -/
theorem C2_bfs_selection_policy_witness :
    (find_emotion_path "sad" "melancholic" =
      _extend_short_path (pyMinByLen ["sad", "melancholic"] [])
        (normEmotion "melancholic") ∧
      pyMinByLen ["sad", "melancholic"] [] ∈ [["sad", "melancholic"]] ∧
      ∀ r ∈ [["sad", "melancholic"]],
        (pyMinByLen ["sad", "melancholic"] []).length ≤ r.length) ∧
    (∃ b, _extend_short_path ["sad", "melancholic"] "melancholic" =
        [["sad", "melancholic"].headD "", b, "melancholic"] ∧
      b ∈ emotionKeys ∧ b ∉ [["sad", "melancholic"].headD "", "melancholic"] ∧
      ∀ e ∈ emotionKeys, e ∉ [["sad", "melancholic"].headD "", "melancholic"] →
        manhattanDistTo
          (((get_va_coordinates (["sad", "melancholic"].headD "")).1 +
            (get_va_coordinates "melancholic").1) / 2)
          (((get_va_coordinates (["sad", "melancholic"].headD "")).2 +
            (get_va_coordinates "melancholic").2) / 2) b ≤
        manhattanDistTo
          (((get_va_coordinates (["sad", "melancholic"].headD "")).1 +
            (get_va_coordinates "melancholic").1) / 2)
          (((get_va_coordinates (["sad", "melancholic"].headD "")).2 +
            (get_va_coordinates "melancholic").2) / 2) e) :=
  ⟨(C2_bfs_selection_policy.2.1 "sad" "melancholic" (by decide)
      ["sad", "melancholic"] [] (by decide)).2 (by decide),
   C2_bfs_selection_policy.2.2 ["sad", "melancholic"] "melancholic" (by decide)⟩

/-! ### Lemmas about column min/max -/

lemma listMin?_ne_none (x : Rat) (xs : List Rat) : listMin? (x :: xs) ≠ none := by
  rw [listMin?]
  match listMin? xs with
  | none => simp
  | some m => simp

lemma listMax?_ne_none (x : Rat) (xs : List Rat) : listMax? (x :: xs) ≠ none := by
  rw [listMax?]
  match listMax? xs with
  | none => simp
  | some m => simp

lemma listMin?_le : ∀ (l : List Rat) (m : Rat), listMin? l = some m →
    ∀ x ∈ l, m ≤ x := by
  intro l
  induction l with
  | nil => intro m hm x hx; exact absurd hx (List.not_mem_nil x)
  | cons a l ih =>
    intro m hm x hx
    rw [listMin?] at hm
    rcases List.mem_cons.1 hx with rfl | hx'
    · match hl : listMin? l with
      | none => rw [hl] at hm; exact le_of_eq (Option.some.inj hm).symm
      | some m' =>
        rw [hl] at hm
        rw [← Option.some.inj hm]
        exact min_le_left _ _
    · match hl : listMin? l with
      | none =>
        match l, hx' with
        | b :: l', hx' => exact absurd hl (listMin?_ne_none b l')
      | some m' =>
        rw [hl] at hm
        rw [← Option.some.inj hm]
        exact le_trans (min_le_right _ _) (ih m' hl x hx')

lemma listMin?_mem : ∀ (l : List Rat) (m : Rat), listMin? l = some m →
    m ∈ l := by
  intro l
  induction l with
  | nil => intro m hm; exact absurd hm (by rw [listMin?]; simp)
  | cons a l ih =>
    intro m hm
    rw [listMin?] at hm
    match hl : listMin? l with
    | none =>
      rw [hl] at hm
      rw [← Option.some.inj hm]
      exact List.mem_cons_self _ _
    | some m' =>
      rw [hl] at hm
      rw [← Option.some.inj hm]
      rcases le_total a m' with hle | hle
      · rw [min_eq_left hle]; exact List.mem_cons_self _ _
      · rw [min_eq_right hle]; exact List.mem_cons_of_mem _ (ih m' hl)

lemma listMax?_ge : ∀ (l : List Rat) (m : Rat), listMax? l = some m →
    ∀ x ∈ l, x ≤ m := by
  intro l
  induction l with
  | nil => intro m hm x hx; exact absurd hx (List.not_mem_nil x)
  | cons a l ih =>
    intro m hm x hx
    rw [listMax?] at hm
    rcases List.mem_cons.1 hx with rfl | hx'
    · match hl : listMax? l with
      | none => rw [hl] at hm; exact le_of_eq (Option.some.inj hm)
      | some m' =>
        rw [hl] at hm
        rw [← Option.some.inj hm]
        exact le_max_left _ _
    · match hl : listMax? l with
      | none =>
        match l, hx' with
        | b :: l', hx' => exact absurd hl (listMax?_ne_none b l')
      | some m' =>
        rw [hl] at hm
        rw [← Option.some.inj hm]
        exact le_trans (ih m' hl x hx') (le_max_right _ _)

lemma listMax?_mem : ∀ (l : List Rat) (m : Rat), listMax? l = some m →
    m ∈ l := by
  intro l
  induction l with
  | nil => intro m hm; exact absurd hm (by rw [listMax?]; simp)
  | cons a l ih =>
    intro m hm
    rw [listMax?] at hm
    match hl : listMax? l with
    | none =>
      rw [hl] at hm
      rw [← Option.some.inj hm]
      exact List.mem_cons_self _ _
    | some m' =>
      rw [hl] at hm
      rw [← Option.some.inj hm]
      rcases le_total a m' with hle | hle
      · rw [max_eq_right hle]; exact List.mem_cons_of_mem _ (ih m' hl)
      · rw [max_eq_left hle]; exact List.mem_cons_self _ _

/-- `filterMap id` commutes with mapping a function over the `some`s. -/
lemma seriesNumeric_map (s : List (Option Rat)) (f : Rat → Rat) :
    seriesNumeric (s.map (Option.map f)) = (seriesNumeric s).map f := by
  induction s with
  | nil => rfl
  | cons a s ih =>
    match a with
    | none => simpa [seriesNumeric] using ih
    | some x => simpa [seriesNumeric] using ih

/-! ### C3 and C10: corpus normalization -/

/-- Reduction of `_normalize_series_to_minus1_1` once min and max are
known to exist. -/
lemma normalize_eq_of_minmax (s : List (Option Rat)) (mn mx : Rat)
    (hmin : listMin? (seriesNumeric s) = some mn)
    (hmax : listMax? (seriesNumeric s) = some mx) :
    _normalize_series_to_minus1_1 s =
      if mx = mn then s
      else if -1.2 ≤ mn ∧ mx ≤ 1.2 then s
      else if 0 ≤ mn ∧ mn ≤ 1 ∧ 0 ≤ mx ∧ mx ≤ 1 then
        s.map (Option.map (fun x => x * 2 - 1))
      else s.map (Option.map (fun x => 2 * ((x - mn) / (mx - mn)) - 1)) := by
  rw [_normalize_series_to_minus1_1, hmin, hmax]

/-- A column whose numeric values all lie within [-1.2, 1.2] is returned
unchanged (the keep-as-is branch, which is tested first). -/
lemma normalize_keep_of_bounds (s : List (Option Rat))
    (hb : ∀ x ∈ seriesNumeric s, -1.2 ≤ x ∧ x ≤ 1.2) :
    _normalize_series_to_minus1_1 s = s := by
  cases hmin : listMin? (seriesNumeric s) with
  | none => rw [_normalize_series_to_minus1_1, hmin]
  | some mn =>
    cases hmax : listMax? (seriesNumeric s) with
    | none => rw [_normalize_series_to_minus1_1, hmin, hmax]
    | some mx =>
      rw [normalize_eq_of_minmax s mn mx hmin hmax]
      by_cases heq : mx = mn
      · rw [if_pos heq]
      · rw [if_neg heq,
          if_pos ⟨(hb mn (listMin?_mem _ mn hmin)).1,
            (hb mx (listMax?_mem _ mx hmax)).2⟩]

/-- A column with distinct min/max lying outside [-1.2, 1.2] is min-max
rescaled. -/
lemma normalize_minmax (s : List (Option Rat)) (mn mx : Rat)
    (hmin : listMin? (seriesNumeric s) = some mn)
    (hmax : listMax? (seriesNumeric s) = some mx)
    (hne : mx ≠ mn) (hout : ¬(-1.2 ≤ mn ∧ mx ≤ 1.2)) :
    _normalize_series_to_minus1_1 s =
      s.map (Option.map (fun x => 2 * ((x - mn) / (mx - mn)) - 1)) := by
  have hzero : ¬(0 ≤ mn ∧ mn ≤ 1 ∧ 0 ≤ mx ∧ mx ≤ 1) := by
    intro hin
    refine hout ⟨?_, ?_⟩
    · have : (-1.2 : Rat) ≤ 0 := by norm_num
      linarith [hin.1]
    · have : (1 : Rat) ≤ 1.2 := by norm_num
      linarith [hin.2.2.2]
  rw [normalize_eq_of_minmax s mn mx hmin hmax, if_neg hne, if_neg hout,
    if_neg hzero]

/-- C3 counterexample to the claim as stated: the column [0, 1] has min and
max within [0, 1], but loading leaves it unchanged instead of mapping it
via `2x - 1`, because the keep-as-is test for [-1.2, 1.2] fires first. -/
theorem C3_corpus_normalization_counterexample :
    _normalize_series_to_minus1_1 [some 0, some 1] = [some 0, some 1] ∧
    ([some 0, some 1] : List (Option Rat)).map
      (Option.map (fun x => x * 2 - 1)) = [some (-1), some 1] ∧
    _normalize_series_to_minus1_1 [some 0, some 1] ≠ [some (-1), some 1] := by
  have h1 : _normalize_series_to_minus1_1 [some 0, some 1] = [some 0, some 1] := by
    apply normalize_keep_of_bounds
    intro x hx
    have : x = 0 ∨ x = 1 := by simpa [seriesNumeric] using hx
    rcases this with rfl | rfl
    · constructor <;> norm_num
    · constructor <;> norm_num
  refine ⟨h1, ?_, ?_⟩
  · simp only [List.map_cons, List.map_nil, Option.map_some']
    norm_num
  · rw [h1]
    intro h
    have := List.cons.inj h
    have h0 : (0 : Rat) = -1 := Option.some.inj this.1
    norm_num at h0

/-- C3 (amended): values already within [-1, 1] are left unchanged; a
column whose observed min/max lie within [0, 1] is **also left unchanged**
(the source tests the [-1.2, 1.2] keep-as-is range first, so the `2x - 1`
branch is unreachable); a column with distinct min/max outside [-1.2, 1.2]
is min-max rescaled onto [-1, 1], with min ↦ -1 and max ↦ 1. -/
theorem C3_corpus_normalization_amended :
    (∀ s : List (Option Rat), (∀ x ∈ seriesNumeric s, -1 ≤ x ∧ x ≤ 1) →
      _normalize_series_to_minus1_1 s = s) ∧
    (∀ s : List (Option Rat), (∀ x ∈ seriesNumeric s, 0 ≤ x ∧ x ≤ 1) →
      _normalize_series_to_minus1_1 s = s) ∧
    (∀ s : List (Option Rat), ∀ mn mx : Rat,
      listMin? (seriesNumeric s) = some mn →
      listMax? (seriesNumeric s) = some mx →
      mx ≠ mn → ¬(-1.2 ≤ mn ∧ mx ≤ 1.2) →
      _normalize_series_to_minus1_1 s =
        s.map (Option.map (fun x => 2 * ((x - mn) / (mx - mn)) - 1)) ∧
      (∀ x ∈ seriesNumeric (_normalize_series_to_minus1_1 s),
        -1 ≤ x ∧ x ≤ 1) ∧
      2 * ((mn - mn) / (mx - mn)) - 1 = -1 ∧
      2 * ((mx - mn) / (mx - mn)) - 1 = 1) := by
  refine ⟨?_, ?_, ?_⟩
  · intro s hx
    apply normalize_keep_of_bounds
    intro x hmem
    have ha : (-1.2 : Rat) ≤ -1 := by norm_num
    have hb : (1 : Rat) ≤ 1.2 := by norm_num
    exact ⟨le_trans ha (hx x hmem).1, le_trans (hx x hmem).2 hb⟩
  · intro s hx
    apply normalize_keep_of_bounds
    intro x hmem
    have ha : (-1.2 : Rat) ≤ 0 := by norm_num
    have hb : (1 : Rat) ≤ 1.2 := by norm_num
    exact ⟨le_trans ha (hx x hmem).1, le_trans (hx x hmem).2 hb⟩
  · intro s mn mx hmin hmax hne hout
    have heq := normalize_minmax s mn mx hmin hmax hne hout
    have hlt : mn < mx := by
      have hle : mn ≤ mx :=
        listMin?_le _ mn hmin mx (listMax?_mem _ mx hmax)
      exact lt_of_le_of_ne hle (fun h => hne h.symm)
    have hden : (0 : Rat) < mx - mn := by linarith
    refine ⟨heq, ?_, ?_, ?_⟩
    · intro x hxmem
      rw [heq, seriesNumeric_map] at hxmem
      obtain ⟨y, hy, rfl⟩ := List.mem_map.1 hxmem
      have hmn := listMin?_le _ mn hmin y hy
      have hmx := listMax?_ge _ mx hmax y hy
      have hq0 : 0 ≤ (y - mn) / (mx - mn) :=
        div_nonneg (by linarith) (le_of_lt hden)
      have hq1 : (y - mn) / (mx - mn) ≤ 1 :=
        (div_le_one hden).2 (by linarith)
      constructor <;> linarith
    · rw [sub_self, zero_div]
      ring
    · rw [div_self (ne_of_gt hden)]
      ring

/-- Witness for C3's amended theorem: an in-range column is untouched, a
column of [0, 2] (max outside 1.2) is min-max rescaled. -/
theorem C3_corpus_normalization_amended_witness :
    _normalize_series_to_minus1_1 [some 0] = [some 0] ∧
    (_normalize_series_to_minus1_1 [some 0, some 2] =
      ([some 0, some 2] : List (Option Rat)).map
        (Option.map (fun x => 2 * ((x - 0) / (2 - 0)) - 1)) ∧
      (∀ x ∈ seriesNumeric (_normalize_series_to_minus1_1 [some 0, some 2]),
        -1 ≤ x ∧ x ≤ 1) ∧
      2 * (((0 : Rat) - 0) / (2 - 0)) - 1 = -1 ∧
      2 * (((2 : Rat) - 0) / (2 - 0)) - 1 = 1) :=
  ⟨C3_corpus_normalization_amended.1 [some 0]
      (by
        intro x hx
        have : x = 0 := by simpa [seriesNumeric] using hx
        rw [this]
        constructor <;> norm_num),
   C3_corpus_normalization_amended.2.2 [some 0, some 2] 0 2
      (by
        rw [show seriesNumeric [some 0, some 2] = [0, 2] from rfl,
          listMin?, listMin?, listMin?]
        norm_num [min_def])
      (by
        rw [show seriesNumeric [some 0, some 2] = [0, 2] from rfl,
          listMax?, listMax?, listMax?]
        norm_num [max_def])
      (by norm_num)
      (by
        intro h
        have : (1.2 : Rat) = 6/5 := by norm_num
        rw [this] at h
        norm_num at h)⟩

/-- C10: the normalizer is guarded against degenerate columns: a column
with no parseable numeric value, or all of whose numeric values are equal
(max = min), is returned unchanged instead of dividing by zero; in
particular a constant column of 5.0 outside [-1, 1] is not rescaled. -/
theorem C10_normalization_degenerate_guard :
    (∀ s : List (Option Rat), seriesNumeric s = [] →
      _normalize_series_to_minus1_1 s = s) ∧
    (∀ s : List (Option Rat),
      (∀ x ∈ seriesNumeric s, ∀ y ∈ seriesNumeric s, x = y) →
      _normalize_series_to_minus1_1 s = s) ∧
    _normalize_series_to_minus1_1 [some 5, some 5, some 5] =
      [some 5, some 5, some 5] := by
  have hconst : ∀ s : List (Option Rat),
      (∀ x ∈ seriesNumeric s, ∀ y ∈ seriesNumeric s, x = y) →
      _normalize_series_to_minus1_1 s = s := by
    intro s h
    cases hmin : listMin? (seriesNumeric s) with
    | none => rw [_normalize_series_to_minus1_1, hmin]
    | some mn =>
      cases hmax : listMax? (seriesNumeric s) with
      | none => rw [_normalize_series_to_minus1_1, hmin, hmax]
      | some mx =>
        rw [normalize_eq_of_minmax s mn mx hmin hmax,
          if_pos (h mx (listMax?_mem _ mx hmax) mn (listMin?_mem _ mn hmin))]
  refine ⟨?_, hconst, ?_⟩
  · intro s hempty
    rw [_normalize_series_to_minus1_1, hempty]
    rfl
  · apply hconst
    intro x hx y hy
    have hx5 : x = 5 := by simpa [seriesNumeric] using hx
    have hy5 : y = 5 := by simpa [seriesNumeric] using hy
    rw [hx5, hy5]

/-- Witness for C10: an all-NaN column and a constant (3.0) column are both
returned unchanged. -/
theorem C10_normalization_degenerate_guard_witness :
    _normalize_series_to_minus1_1 [none] = [none] ∧
    _normalize_series_to_minus1_1 [some 3, none, some 3] =
      [some 3, none, some 3] :=
  ⟨C10_normalization_degenerate_guard.1 [none] rfl,
   C10_normalization_degenerate_guard.2.1 [some 3, none, some 3]
      (by
        intro x hx y hy
        have hx3 : x = 3 := by simpa [seriesNumeric] using hx
        have hy3 : y = 3 := by simpa [seriesNumeric] using hy
        rw [hx3, hy3])⟩

/-! ### C5: cubic ease-in-out waypoints -/

/-- Indexing a function mapped over `List.range`. -/
lemma getD_map_range (f : Nat → List Rat) (n i : Nat) (hi : i < n) :
    ((List.range n).map f).getD i [] = f i := by
  rw [List.getD_eq_getElem?_getD, List.getElem?_map, List.getElem?_range hi,
    Option.map_some', Option.getD_some]

/-- C5: for every pair of (standardized) endpoint feature vectors and
every waypoint count `n ≥ 2`, the `i`-th point generated by
`_gradient_based_transition` equals the spec's formula: `t = i/(n-1)`,
eased by `4t³` for `t < 0.5` and `1-((-2t+2)³)/2` otherwise, then linear
interpolation of the endpoints by the eased value.  (For `n ≥ 2` the
source's `max(1, n-1)` denominator coincides with the spec's `n-1`.) -/
theorem C5_cubic_ease_in_out_waypoints (start_features end_features : List Rat)
    (n i : Nat) (h2 : 2 ≤ n) (hi : i < n) :
    (_gradient_based_transition start_features end_features n).getD i [] =
      specWaypoint start_features end_features n i := by
  rw [_gradient_based_transition, getD_map_range _ n i hi, specWaypoint]
  have hmax : max 1 (n - 1) = n - 1 := max_eq_right (by omega)
  have hcast : ((max 1 (n - 1) : Nat) : Rat) = (n : Rat) - 1 := by
    rw [hmax, Nat.cast_sub (by omega : 1 ≤ n), Nat.cast_one]
  rw [hcast]
  have heased : ∀ t : Rat,
      (if t < 0.5 then 4 * t * t * t else 1 - (-2 * t + 2) ^ 3 / 2) =
      (if t < 0.5 then 4 * t ^ 3 else 1 - (-2 * t + 2) ^ 3 / 2) := by
    intro t
    by_cases ht : t < 0.5
    · rw [if_pos ht, if_pos ht]; ring
    · rw [if_neg ht, if_neg ht]
  show vlerp start_features end_features
      (if (i : Rat) / ((n : Rat) - 1) < 0.5
        then 4 * ((i : Rat) / ((n : Rat) - 1)) * ((i : Rat) / ((n : Rat) - 1)) *
          ((i : Rat) / ((n : Rat) - 1))
        else 1 - (-2 * ((i : Rat) / ((n : Rat) - 1)) + 2) ^ 3 / 2) = _
  rw [heased ((i : Rat) / ((n : Rat) - 1))]
  rfl

/-- Witness for C5 at `n = 3`, `i = 1`. -/
theorem C5_cubic_ease_in_out_waypoints_witness :
    (_gradient_based_transition [0, 0] [1, 1] 3).getD 1 [] =
      specWaypoint [0, 0] [1, 1] 3 1 :=
  C5_cubic_ease_in_out_waypoints [0, 0] [1, 1] 3 1 (by norm_num) (by norm_num)

/-! ### C4, C6, C7: the selection loop -/

/-- The selection invariant: every selected id has been recorded in
`used_ids`, and the selected ids are pairwise distinct. -/
def SelInv {S : Type} (st : SelState S) : Prop :=
  (∀ tr ∈ st.selected, tr.spotify_id ∈ st.used_ids) ∧
  (st.selected.map (fun tr => tr.spotify_id)).Nodup

/-- Every candidate's id is unused: the building loop skips used ids. -/
lemma mem_waypointCandidates_not_used {S : Type} (env : NumEnv S)
    (df : List Track) (fm : List (List Rat)) (p : List Rat)
    (used : List String) (pr : Track × Rat)
    (hpr : pr ∈ waypointCandidates env df fm p used) :
    pr.1.spotify_id ∉ used := by
  rw [waypointCandidates] at hpr
  obtain ⟨idx, _, heq⟩ := List.mem_filterMap.1 hpr
  simp only at heq
  by_cases hin : (df.getD idx default).spotify_id ∈ used
  · rw [if_pos hin] at heq
    exact absurd heq (by simp)
  · rw [if_neg hin] at heq
    rw [← Option.some.inj heq]
    exact hin

/-- `processWaypoint` either leaves the state unchanged (no candidates) or
appends exactly one track whose id was not yet used, recording its id. -/
lemma processWaypoint_cases {S : Type} (env : NumEnv S) (df : List Track)
    (fm : List (List Rat)) (p : List Rat) (st : SelState S) :
    processWaypoint env df fm p st = st ∨
    ∃ tr : Track, tr.spotify_id ∉ st.used_ids ∧
      (processWaypoint env df fm p st).selected = st.selected ++ [tr] ∧
      (processWaypoint env df fm p st).used_ids =
        st.used_ids ++ [tr.spotify_id] := by
  by_cases hc : (waypointCandidates env df fm p st.used_ids).length = 0
  · left
    rw [processWaypoint, dif_pos hc]
  · right
    have hred : ∀ pr : Track × Rat,
        pr ∈ waypointCandidates env df fm p st.used_ids →
        pr.1.spotify_id ∉ st.used_ids :=
      fun pr => mem_waypointCandidates_not_used env df fm p st.used_ids pr
    rw [processWaypoint]
    rw [dif_neg hc]
    refine ⟨_, ?_, rfl, rfl⟩
    exact hred _ (List.get_mem _ _ _)

/-- The waypoint step preserves the selection invariant. -/
lemma processWaypoint_inv {S : Type} (env : NumEnv S) (df : List Track)
    (fm : List (List Rat)) (p : List Rat) (st : SelState S)
    (h : SelInv st) : SelInv (processWaypoint env df fm p st) := by
  rcases processWaypoint_cases env df fm p st with heq | ⟨tr, hnot, hsel, hused⟩
  · rw [heq]; exact h
  · constructor
    · intro t ht
      rw [hsel] at ht
      rw [hused]
      rcases List.mem_append.1 ht with ht | ht
      · exact List.mem_append_left _ (h.1 t ht)
      · rw [List.mem_singleton.1 ht]
        exact List.mem_append_right _ (List.mem_singleton.2 rfl)
    · rw [hsel, List.map_append, List.nodup_append]
      refine ⟨h.2, by simp, ?_⟩
      simp only [List.map_cons, List.map_nil, List.disjoint_singleton]
      intro hmem
      obtain ⟨u, hu, hequ⟩ := List.mem_map.1 hmem
      exact hnot (hequ ▸ h.1 u hu)

/-- The waypoint step selects at most one song. -/
lemma processWaypoint_len {S : Type} (env : NumEnv S) (df : List Track)
    (fm : List (List Rat)) (p : List Rat) (st : SelState S) :
    (processWaypoint env df fm p st).selected.length ≤
      st.selected.length + 1 := by
  rcases processWaypoint_cases env df fm p st with heq | ⟨tr, _, hsel, _⟩
  · rw [heq]; omega
  · rw [hsel, List.length_append, List.length_singleton]

/-- The waypoint loop preserves the selection invariant. -/
lemma processPoints_inv {S : Type} (env : NumEnv S) (df : List Track)
    (fm : List (List Rat)) (n : Nat) :
    ∀ (pts : List (List Rat)) (st : SelState S), SelInv st →
      SelInv (processPoints env df fm n pts st) := by
  intro pts
  induction pts with
  | nil => intro st h; exact h
  | cons point rest ih =>
    intro st h
    simp only [processPoints]
    split
    · exact processWaypoint_inv env df fm point st h
    · exact ih _ (processWaypoint_inv env df fm point st h)

/-- The waypoint loop never exceeds the requested count when it starts
strictly below it (the `break` fires as soon as the count is reached). -/
lemma processPoints_len {S : Type} (env : NumEnv S) (df : List Track)
    (fm : List (List Rat)) (n : Nat) :
    ∀ (pts : List (List Rat)) (st : SelState S),
      st.selected.length < n →
      (processPoints env df fm n pts st).selected.length ≤ n := by
  intro pts
  induction pts with
  | nil => intro st h; exact le_of_lt h
  | cons point rest ih =>
    intro st h
    have hle : (processWaypoint env df fm point st).selected.length ≤ n := by
      have := processWaypoint_len env df fm point st
      omega
    simp only [processPoints]
    split
    · exact hle
    · rename_i hn
      exact ih _ (lt_of_not_le hn)

/-- `processPoints` on an empty waypoint list is the identity. -/
lemma processPoints_nil {S : Type} (env : NumEnv S) (df : List Track)
    (fm : List (List Rat)) (n : Nat) (st : SelState S) :
    processPoints env df fm n [] st = st := rfl

/-- Zero waypoints are generated for a zero song count. -/
lemma gradient_zero (sf ef : List Rat) :
    _gradient_based_transition sf ef 0 = [] := rfl

/-- The segment loop preserves the selection invariant. -/
lemma processSegments_inv {S : Type} (env : NumEnv S) (df : List Track)
    (fm raw : List (List Rat)) (path : List String) (n : Nat) :
    ∀ (idxs : List Nat) (st : SelState S), SelInv st →
      SelInv (processSegments env df fm raw path n idxs st) := by
  intro idxs
  induction idxs with
  | nil => intro st h; exact h
  | cons path_idx rest ih =>
    intro st h
    simp only [processSegments]
    split <;> split
    · exact processPoints_inv env df fm n _ st h
    · exact ih _ (processPoints_inv env df fm n _ st h)
    · exact processPoints_inv env df fm n _ st h
    · exact ih _ (processPoints_inv env df fm n _ st h)

/-- The segment loop keeps the selection within the requested count. -/
lemma processSegments_len {S : Type} (env : NumEnv S) (df : List Track)
    (fm raw : List (List Rat)) (path : List String) (n : Nat) :
    ∀ (idxs : List Nat) (st : SelState S),
      (st.selected.length < n ∨ (st.selected.length = 0 ∧ n = 0)) →
      (processSegments env df fm raw path n idxs st).selected.length ≤ n := by
  intro idxs
  induction idxs with
  | nil =>
    intro st h
    rcases h with h | ⟨h0, hn⟩
    · exact le_of_lt h
    · rw [processSegments, h0, hn]
  | cons path_idx rest ih =>
    intro st h
    rcases h with hlt | ⟨h0, rfl⟩
    · simp only [processSegments]
      split <;> split
      · exact processPoints_len env df fm n _ st hlt
      · rename_i hn
        exact ih _ (Or.inl (lt_of_not_le hn))
      · exact processPoints_len env df fm n _ st hlt
      · rename_i hn
        exact ih _ (Or.inl (lt_of_not_le hn))
    · simp only [processSegments]
      have hsongs :
          (if path_idx = path.length - 2 then 0 - st.selected.length
            else 0 / max 1 (path.length - 1)) = 0 := by
        split
        · omega
        · exact Nat.zero_div _
      rw [hsongs, gradient_zero, processPoints_nil,
        if_pos (Nat.zero_le st.selected.length)]
      exact le_of_eq h0

/-- The core composer never selects more than `num_steps` songs and its
selected ids satisfy the invariant. -/
lemma playlistCore_spec {S : Type} (env : NumEnv S) (engine : MusicEngine)
    (sn tn : String) (n : Nat) (g' : S) :
    (playlistCore env engine sn tn n g').length ≤ n ∧
    ((playlistCore env engine sn tn n g').map
      (fun tr => tr.spotify_id)).Nodup := by
  have hinv : SelInv ({ selected := [], used_ids := [], rng := g' } :
      SelState S) :=
    ⟨fun t ht => absurd ht (List.not_mem_nil t), List.Pairwise.nil⟩
  constructor
  · simp only [playlistCore]
    apply processSegments_len
    rcases Nat.eq_zero_or_pos n with rfl | hpos
    · exact Or.inr ⟨rfl, rfl⟩
    · exact Or.inl hpos
  · simp only [playlistCore]
    exact (processSegments_inv env engine.df _ _ _ n _ _ hinv).2

/-- C4: for every environment, corpus, inputs and requested count, the
playlist has at most `num_steps` tracks and no two tracks share a
`spotify_id` (each chosen id enters the exclusion set and is filtered out
of all later candidate pools). -/
theorem C4_playlist_size_and_uniqueness {S : Type} (env : NumEnv S)
    (engine : MusicEngine) (start_emotion target_emotion : String)
    (num_steps : Nat) (random_state : Option Nat) (g : S) :
    (generate_playlist env engine start_emotion target_emotion num_steps
      random_state g).length ≤ num_steps ∧
    (generate_playlist env engine start_emotion target_emotion num_steps
      random_state g).Pairwise
      (fun a b => a.spotify_id ≠ b.spotify_id) := by
  simp only [generate_playlist]
  split
  · exact ⟨Nat.zero_le _, List.Pairwise.nil⟩
  · split
    · exact ⟨Nat.zero_le _, List.Pairwise.nil⟩
    · refine ⟨(playlistCore_spec env engine _ _ num_steps _).1, ?_⟩
      have := (playlistCore_spec env engine
        (pyStrip (pyLower start_emotion)) (pyStrip (pyLower target_emotion))
        num_steps (match random_state with
          | some seed_val => env.seed seed_val
          | none => g)).2
      exact List.pairwise_map.1 this

/-- C6: the composer returns an empty playlist (returning normally — the
embedding is a total function) whenever the corpus is not ready, and
whenever the normalized start and target emotions coincide. -/
theorem C6_empty_playlist_signals {S : Type} (env : NumEnv S)
    (engine : MusicEngine) (start_emotion target_emotion : String)
    (num_steps : Nat) (random_state : Option Nat) (g : S) :
    (engine.is_ready = false →
      generate_playlist env engine start_emotion target_emotion num_steps
        random_state g = []) ∧
    (pyStrip (pyLower start_emotion) = pyStrip (pyLower target_emotion) →
      generate_playlist env engine start_emotion target_emotion num_steps
        random_state g = []) := by
  constructor
  · intro hr
    simp only [generate_playlist, hr, if_true]
  · intro hst
    simp only [generate_playlist, hst, if_pos rfl]
    split <;> rfl

/-- Witness for C6: an empty corpus, and the pair ("calm", "calm"). -/
theorem C6_empty_playlist_signals_witness :
    (generate_playlist unitNumEnv { df := [] } "happy" "calm" 5
      (some 42) () = []) ∧
    (generate_playlist unitNumEnv
      { df := [{ track := "a", artist := "b", valence := 0, arousal := 0,
                 spotify_id := "x" }] } "calm" "calm" 5 (some 42) () = []) :=
  ⟨(C6_empty_playlist_signals unitNumEnv { df := [] } "happy" "calm" 5
      (some 42) ()).1 rfl,
   (C6_empty_playlist_signals unitNumEnv _ "calm" "calm" 5 (some 42) ()).2
      (by decide)⟩

/-- C7: with the same explicit (non-`None`) seed, the playlist does not
depend on the prior global RNG state: `np.random.seed` replaces the state,
so two calls with identical arguments return identical playlists (same
ids, same order) regardless of the RNG state `g₁`/`g₂` each call starts
from.  Purity in all other inputs is intrinsic to the embedding. -/
theorem C7_seeded_determinism {S : Type} (env : NumEnv S)
    (engine : MusicEngine) (start_emotion target_emotion : String)
    (num_steps : Nat) (seed_val : Nat) (g1 g2 : S) :
    generate_playlist env engine start_emotion target_emotion num_steps
      (some seed_val) g1 =
    generate_playlist env engine start_emotion target_emotion num_steps
      (some seed_val) g2 := rfl

end MusicTherapy
